import Mathlib

/-!
Shallow embedding of the xml-lsp language server (files
`xml_language_server/xmllsp.py`, `xml_language_server/workspace.py`,
`xml_language_server/server.py`) and proofs about the specified behaviour of
its position translator, session store, schema resolver, validation pipeline,
diagnostic mapper and completion-context resolver.

External collaborators (the XML parser, the schema engine, the filesystem)
are modelled as oracle functions; everything the repository itself computes
is translated directly from the Python source.
-/

namespace XmlLsp

/-! ## Position translator (`_pos_to_offset`, `_pos_to_offset2`) -/

/-- Characters that Python's `str.splitlines` treats as line boundaries. -/
def isLineBreak (c : Char) : Bool :=
  c = '\n' || c = '\r' || c = '\x0b' || c = '\x0c' ||
  c = '\x1c' || c = '\x1d' || c = '\x1e' || c = '\x85' ||
  c = '\u2028' || c = '\u2029'

/-- `str.splitlines(True)` over char lists: split into lines, keeping the
terminators; `"\r\n"` counts as a single terminator.  `acc` is the current
line accumulated in reverse. -/
def splitlinesAux : List Char → List Char → List (List Char)
  | acc, [] => if acc.isEmpty then [] else [acc.reverse]
  | acc, c :: rest =>
    if c = '\r' then
      match rest with
      | c2 :: rest2 =>
        if c2 = '\n' then (acc.reverse ++ [c, c2]) :: splitlinesAux [] rest2
        else (acc.reverse ++ [c]) :: splitlinesAux [] (c2 :: rest2)
      | [] => (acc.reverse ++ [c]) :: splitlinesAux [] []
    else if isLineBreak c then (acc.reverse ++ [c]) :: splitlinesAux [] rest
    else splitlinesAux (c :: acc) rest

/-- `content.splitlines(True)` from `_pos_to_offset2`. -/
def splitlines (s : String) : List String :=
  (splitlinesAux [] s.data).map (fun l => ⟨l⟩)

/-- `if not lines: lines = [""]` from `_pos_to_offset2` and
`_apply_incremental_changes`. -/
def fixLines (lines : List String) : List String :=
  if lines = [] then [""] else lines

/-- The loop `for i in range(pos.line): offset += len(lines[i])` of
`_pos_to_offset`; `none` models the `IndexError` raised when the loop indexes
past the end of `lines`. -/
def sumTake : List String → Nat → Option Nat
  | _, 0 => some 0
  | [], _ + 1 => none
  | l :: ls, n + 1 => (sumTake ls n).map (fun m => l.length + m)

/-- `_pos_to_offset(lines, pos)`: sum of the lengths of the first `line`
lines plus `char`; `none` models a raised `IndexError`. -/
def posToOffset (lines : List String) (line char : Nat) : Option Nat :=
  (sumTake lines line).map (fun off => off + char)

/-- `_pos_to_offset2(content, pos)`. -/
def posToOffset2 (content : String) (line char : Nat) : Option Nat :=
  posToOffset (fixLines (splitlines content)) line char

/-! ## Incremental edits (`_apply_incremental_changes`) -/

/-- One element of `params.content_changes`: either a full-content update
(no `range` attribute) or a range replacement. -/
inductive DocChange where
  | full (text : String)
  | ranged (startLine startChar endLine endChar : Nat) (text : String)
deriving DecidableEq

/-- A `DocChange` that carries a range. -/
def DocChange.isRanged : DocChange → Prop
  | .full _ => False
  | .ranged _ _ _ _ _ => True

instance (c : DocChange) : Decidable c.isRanged := by
  cases c <;> simp [DocChange.isRanged] <;> infer_instance

/-- One iteration of the loop body of `_apply_incremental_changes` for a
range edit: `content[:start_offset] + change.text + content[end_offset:]`.
`none` models the `IndexError` from `_pos_to_offset`. -/
def applyRanged (content : String) (sl sc el ec : Nat) (text : String) : Option String :=
  let lines := fixLines (splitlines content)
  match posToOffset lines sl sc, posToOffset lines el ec with
  | some so, some eo => some ((content.data.take so ++ text.data ++ content.data.drop eo).asString)
  | _, _ => none

/-- `_apply_incremental_changes(content, changes)`.  A full-content update
`return`s immediately, so the remaining changes in the batch are dropped,
exactly as in the source. -/
def applyIncrementalChanges : String → List DocChange → Option String
  | content, [] => some content
  | _, .full t :: _ => some t
  | content, .ranged sl sc el ec t :: rest =>
    match applyRanged content sl sc el ec t with
    | some c => applyIncrementalChanges c rest
    | none => none

/-- Modelled from the spec: the batch semantics the spec describes, in which
every edit is processed in the order received against the state left by the
previous edit, a full replacement swapping in its text and processing then
continuing with the remaining edits.  Used only to compare against
`applyIncrementalChanges`. -/
def applyEditsSequential : String → List DocChange → Option String
  | content, [] => some content
  | _, .full t :: rest => applyEditsSequential t rest
  | content, .ranged sl sc el ec t :: rest =>
    match applyRanged content sl sc el ec t with
    | some c => applyEditsSequential c rest
    | none => none

/-! ## Element-name helpers (`_local_name_for_element`, `_namespace_for_element`) -/

/-- `_local_name_for_element` on a present name string: everything after the
first `}` when one occurs, else the name itself. -/
def localNameOf (name : String) : String :=
  if name.data.contains '}' then ((name.data.dropWhile (fun c => !(c == '}'))).drop 1).asString
  else name

/-- `_namespace_for_element` on a name string: `None` for an empty name,
the text between `{` and the first `}` when a `}` occurs, else `""`. -/
def namespaceOf (name : String) : Option String :=
  if name = "" then none
  else if name.data.contains '}' then
    some (((name.data.takeWhile (fun c => !(c == '}'))).drop 1).asString)
  else some ""

/-! ## Root-element locator

`workspace.py:_find_schemapath_by_rootelement` (the validated revision) and
`xmllsp.py:_find_schemapath_by_rootelement` (the unvalidated revision).
The filesystem is an oracle `fileExists`; each function also returns the
list of paths on which it performed an existence probe. -/

/-- ASCII approximation of Python `str.isalnum` (the inputs of interest are
ASCII). -/
def isAsciiAlnum (c : Char) : Bool := c.isAlpha || c.isDigit

/-- The character whitelist of `workspace.py`: alphanumerics, `.`, `_`, `-`. -/
def rootNameCharOk (c : Char) : Bool :=
  isAsciiAlnum c || c = '.' || c = '_' || c = '-'

/-- Whether the char list contains the substring `".."`. -/
def hasDotDot : List Char → Bool
  | '.' :: '.' :: _ => true
  | _ :: rest => hasDotDot rest
  | [] => false

/-- Split a path into `/`-separated components. -/
def splitOnSlashAux : List Char → List Char → List (List Char)
  | acc, [] => [acc.reverse]
  | acc, '/' :: rest => acc.reverse :: splitOnSlashAux [] rest
  | acc, c :: rest => splitOnSlashAux (c :: acc) rest

/-- Lexical part of `pathlib.Path.resolve` on an absolute path: drop empty
and `.` components and let `..` pop the previous component. -/
def normComponents (comps : List (List Char)) : List (List Char) :=
  comps.foldl
    (fun stack comp =>
      if comp = [] || comp = ['.'] then stack
      else if comp = ['.', '.'] then stack.dropLast
      else stack ++ [comp])
    []

/-- Lexical path resolution (symlinks are out of scope). -/
def resolvePath (p : String) : String :=
  ⟨(normComponents (splitOnSlashAux [] p.data)).foldl (fun acc c => acc ++ '/' :: c) []⟩

/-- `os.path.join(a, b)` for the cases exercised here. -/
def osPathJoin (a b : String) : String :=
  if b.data.head? = some '/' then b
  else if a = "" || a.data.getLast? = some '/' then a ++ b
  else if b = "" then a
  else a ++ "/" ++ b

/-- Search loop of `workspace.py:_find_schemapath_by_rootelement`: resolve
the directory and the candidate file, keep only candidates that stay inside
the directory, and probe the filesystem. -/
def findRootSchemaGo (name : String) (fileExists : String → Bool) :
    List String → List String → Option String × List String
  | [], probes => (none, probes.reverse)
  | sp :: rest, probes =>
    let dir := resolvePath sp
    let file := resolvePath (osPathJoin sp (name ++ ".xsd"))
    if !(dir.data.isPrefixOf file.data) then findRootSchemaGo name fileExists rest probes
    else if fileExists file then (some file, (file :: probes).reverse)
    else findRootSchemaGo name fileExists rest (file :: probes)

/-- `workspace.py:_find_schemapath_by_rootelement(xml_doc, searchpaths)`:
strips any namespace prefix from the root tag, rejects names with characters
outside the whitelist or containing `..`, `/` or `\`, then searches the
configured directories.  The second component lists every filesystem
existence probe performed. -/
def findSchemapathByRootelementW (rootTag : String) (searchpaths : List String)
    (fileExists : String → Bool) : Option String × List String :=
  let name := localNameOf rootTag
  if name == "" || !(name.data.all rootNameCharOk) then (none, [])
  else if hasDotDot name.data || name.data.contains '/' || name.data.contains '\\' then (none, [])
  else findRootSchemaGo name fileExists searchpaths []

/-- Search loop of `xmllsp.py:_find_schemapath_by_rootelement`: no
validation at all, a bare `os.path.join` followed by `os.path.exists`. -/
def findRootSchemaXGo (rootTag : String) (fileExists : String → Bool) :
    List String → List String → Option String × List String
  | [], probes => (none, probes.reverse)
  | sp :: rest, probes =>
    let p := osPathJoin sp (rootTag ++ ".xsd")
    if fileExists p then (some p, (p :: probes).reverse)
    else findRootSchemaXGo rootTag fileExists rest (p :: probes)

/-- `xmllsp.py:_find_schemapath_by_rootelement(xml_doc, searchpaths)`. -/
def findSchemapathByRootelementX (rootTag : String) (searchpaths : List String)
    (fileExists : String → Bool) : Option String × List String :=
  findRootSchemaXGo rootTag fileExists searchpaths []

/-! ## Parser-exception fallback of `_validate_document`

The regex `: line (\d+), column (\d+)` searched over the exception's string
form, with `re.search` semantics (leftmost match). -/

/-- Numeric value of a digit run. -/
def digitsToNat (ds : List Char) : Nat :=
  ds.foldl (fun a c => a * 10 + (c.toNat - '0'.toNat)) 0

/-- Maximal leading digit run and the remaining characters. -/
def takeDigits : List Char → List Char × List Char
  | [] => ([], [])
  | c :: rest =>
    if c.isDigit then
      let (d, r) := takeDigits rest
      (c :: d, r)
    else ([], c :: rest)

/-- Expect a literal prefix, returning the remainder. -/
def dropLiteral : List Char → List Char → Option (List Char)
  | [], l => some l
  | _ :: _, [] => none
  | c :: cs, d :: ds => if c = d then dropLiteral cs ds else none

/-- Try to match `: line (\d+), column (\d+)` at the head of `l`. -/
def matchLineCol (l : List Char) : Option (Nat × Nat) :=
  match dropLiteral ": line ".data l with
  | none => none
  | some r1 =>
    let (d1, r2) := takeDigits r1
    if d1 = [] then none
    else
      match dropLiteral ", column ".data r2 with
      | none => none
      | some r3 =>
        let (d2, _) := takeDigits r3
        if d2 = [] then none
        else some (digitsToNat d1, digitsToNat d2)

/-- `re.search(r": line (\d+), column (\d+)", msg)`: leftmost match, giving
`(match.start(), line, column)`. -/
def searchLineCol : List Char → Nat → Option (Nat × Nat × Nat)
  | [], _ => none
  | c :: rest, i =>
    match matchLineCol (c :: rest) with
    | some (a, b) => some (i, a, b)
    | none => searchLineCol rest (i + 1)

/-- A published zero-width diagnostic position; `line`/`character` are `Int`
because `server.py` can produce negative values. -/
structure DiagPoint where
  message : String
  line : Int
  character : Int
deriving DecidableEq

/-- Parser-exception fallback of `xmllsp.py:_validate_document`: on a match,
one diagnostic with message `msg[:match.start()]` at zero-based
`(line - 1, column - 1)`; otherwise an empty list. -/
def parserExceptionDiagnostics (msg : String) : List DiagPoint :=
  match searchLineCol msg.data 0 with
  | some (i, a, b) => [⟨(msg.data.take i).asString, (a : Int) - 1, (b : Int) - 1⟩]
  | none => []

/-- Parser-exception fallback of `server.py:_validate_document`, identical
except for the `line - 2` adjustment (`# For some reason we need to
subtract 2?, not just 1`). -/
def parserExceptionDiagnosticsServer (msg : String) : List DiagPoint :=
  match searchLineCol msg.data 0 with
  | some (i, a, b) => [⟨(msg.data.take i).asString, (a : Int) - 2, (b : Int) - 1⟩]
  | none => []

/-! ## Completion candidates (`_get_elements_from_type` and the final
`sorted(list(set(...)))` of `_get_element_context_at_position`)

Schema type objects form a finite graph; we name them by `Nat` identifiers.
`contentElems` are the names of the nodes yielded by
`type.content.iter_elements()` (a type whose content has no `iter_elements`
has `contentElems = []`), and `base` is the `base_type` reference. -/

structure XsdTypeInfo where
  contentElems : List String
  base : Option Nat
deriving DecidableEq

/-- Name emitted for one content-model element node: the local name when its
namespace equals the effective default namespace, else the full name. -/
def renderChildName (defaultXmlns : Option String) (name : String) : String :=
  if namespaceOf name = defaultXmlns then localNameOf name else name

/-- The names appended for one type's own content model. -/
def renderedContentNames (info : XsdTypeInfo) (defaultXmlns : Option String) : List String :=
  info.contentElems.map (renderChildName defaultXmlns)

/-- `_get_elements_from_type(xsd_type, default_xmlns, visited_types)`:
collect the content-model names of the type and recursively of its base
types, skipping `None` types and already-visited types.  The fuel argument
only serves termination; `tenv.length + 1` always suffices because every
recursive call adds a distinct environment identifier to `visited`. -/
def getElementsFromType (tenv : List (Nat × XsdTypeInfo)) :
    Nat → Option Nat → Option String → List Nat → List String
  | 0, _, _, _ => []
  | _ + 1, none, _, _ => []
  | fuel + 1, some tid, defaultXmlns, visited =>
    if tid ∈ visited then []
    else
      match List.lookup tid tenv with
      | none => []
      | some info =>
        renderedContentNames info defaultXmlns ++
          getElementsFromType tenv fuel info.base defaultXmlns (tid :: visited)

/-- The identifiers of the types actually visited by
`getElementsFromType`: the matched type followed by its ancestor base types,
stopped by the same cycle guard. -/
def typeDerivationChain (tenv : List (Nat × XsdTypeInfo)) :
    Nat → Option Nat → List Nat → List Nat
  | 0, _, _ => []
  | _ + 1, none, _ => []
  | fuel + 1, some tid, visited =>
    if tid ∈ visited then []
    else tid :: typeDerivationChain tenv fuel ((List.lookup tid tenv).bind XsdTypeInfo.base) (tid :: visited)

/-- `sorted(list(set(valid_children)))` from
`_get_element_context_at_position`. -/
def candidateChildNames (tenv : List (Nat × XsdTypeInfo)) (t : Option Nat)
    (defaultXmlns : Option String) : List String :=
  List.insertionSort (· ≤ ·)
    ((getElementsFromType tenv (tenv.length + 1) t defaultXmlns []).dedup)

/-! ## Server state machine (`xmllsp.py` handlers)

Session store, workspace table, debounce timers and published diagnostics.
`S` is the type of loaded schema objects, `D` of parsed XML documents and
`L` of configured locator entries; the external libraries' behaviour is an
`OracleEnv`.  Each `_validate_document` call is recorded as a `VEvent`
carrying the inputs of the publish (schema `none` means the no-schema branch
that publishes an empty diagnostic set). -/

/-- One entry of `session_cache`: the `{"content": ..., "timer": ...}`
dictionary (the timer is the identifier of the armed `threading.Timer`). -/
structure DocSession where
  content : String
  timer : Option Nat
deriving DecidableEq

/-- An armed `threading.Timer` together with the arguments
`[ls, uri, schema, default_namespace]` captured when it was created. -/
structure TimerInfo (S : Type) where
  id : Nat
  uri : String
  schema : S
  xmlns : Option String
deriving DecidableEq

/-- A `publish_diagnostics` made by `_validate_document`, recorded with the
inputs of the validation: schema `none` is the "no schema" branch that
publishes an empty diagnostic set. -/
structure VEvent (S : Type) where
  uri : String
  content : String
  schema : Option S
  xmlns : Option String
deriving DecidableEq

/-- One workspace dictionary from `ls.workspaces`. -/
structure SchemaWorkspace (S L : Type) where
  locators : List L
  schemasForXsdpath : List (String × S)
  schemapathsForUri : List (String × String)
  defaultXmlnsForSchemapath : List (String × String)
deriving DecidableEq

/-- The mutable server state: workspace table, session store, the armed and
not-yet-fired timers, the timer-identifier counter, and the log of
validation publishes. -/
structure ServerState (S L : Type) where
  workspaces : List (String × SchemaWorkspace S L)
  sessions : List (String × DocSession)
  pending : List (TimerInfo S)
  nextTimerId : Nat
  events : List (VEvent S)
deriving DecidableEq

/-- Oracles for the external collaborators: the recovering XML parser, the
evaluation of one configured locator (its filesystem probing included),
schema loading (`none` models a raised exception), the schema file's
`targetNamespace` attribute, and reading a file from disk. -/
structure OracleEnv (S D L : Type) where
  parse : String → Option D
  evalLocator : L → D → String → Option (String × Bool)
  loadSchema : String → Option S
  targetNamespace : String → Option String
  fsRead : String → Option String

/-- Dictionary update `d[k] = v`. -/
def alInsert {β : Type} (k : String) (v : β) (l : List (String × β)) :
    List (String × β) :=
  (k, v) :: l.filter (fun p => !(p.1 == k))

/-- Dictionary removal `d.pop(k)`. -/
def alErase {β : Type} (k : String) (l : List (String × β)) : List (String × β) :=
  l.filter (fun p => !(p.1 == k))

/-- `uri.rpartition("/")[0]`: everything before the last `/`, or `""`. -/
def rootUriOf (uri : String) : String :=
  match uri.data.reverse.dropWhile (fun c => !(c == '/')) with
  | [] => ""
  | _ :: tail => ⟨tail.reverse⟩

/-- The `for locator in locators` loop of `xmllsp.py:_get_schema_for_doc`:
stop at the first locator producing a candidate path; a candidate that fails
to load aborts resolution entirely; on success cache the schema and, when the
locator requested it and the schema declares a target namespace, record the
default-namespace override.  Also returns the list of locators evaluated. -/
def locatorLoop {S D L : Type} (env : OracleEnv S D L) (ws : SchemaWorkspace S L)
    (doc : D) (uri : String) :
    List L → List L → Option (S × String) × SchemaWorkspace S L × List L
  | [], tried => (none, ws, tried.reverse)
  | loc :: rest, tried =>
    match env.evalLocator loc doc uri with
    | none => locatorLoop env ws doc uri rest (loc :: tried)
    | some (path, useDefaultNs) =>
      match env.loadSchema path with
      | none => (none, ws, (loc :: tried).reverse)
      | some s =>
        let ws1 := { ws with schemasForXsdpath := alInsert path s ws.schemasForXsdpath }
        let ws2 :=
          match env.targetNamespace path, useDefaultNs with
          | some tn, true =>
            { ws1 with defaultXmlnsForSchemapath := alInsert path tn ws1.defaultXmlnsForSchemapath }
          | _, _ => ws1
        (some (s, path), ws2, (loc :: tried).reverse)

/-- `xmllsp.py:_get_schema_for_doc` given the document's workspace: parse the
content (an unparseable document yields no schema), return the cached
`(schema, schema_path)` pair when the URI's cached path still has a loaded
schema, else run the locator loop.  The third component lists the locators
evaluated (empty on a cache hit).  `workspace.py:Workspace.get_schema_for_doc`
shares this parse-then-cache-then-locators structure. -/
def getSchemaForDoc {S D L : Type} (env : OracleEnv S D L) (ws : SchemaWorkspace S L)
    (uri content : String) : Option (S × String) × SchemaWorkspace S L × List L :=
  match env.parse content with
  | none => (none, ws, [])
  | some doc =>
    match List.lookup uri ws.schemapathsForUri with
    | some p =>
      match List.lookup p ws.schemasForXsdpath with
      | some s => (some (s, p), ws, [])
      | none => locatorLoop env ws doc uri ws.locators []
    | none => locatorLoop env ws doc uri ws.locators []

/-- The schema lookup of `did_change`: from the workspace of the URI's root,
the cached schema path, its default-namespace override and its loaded schema
object; `none` whenever any step misses. -/
def boundSchemaFor {S L : Type} (σ : ServerState S L) (uri : String) :
    Option (S × Option String) :=
  match List.lookup (rootUriOf uri) σ.workspaces with
  | none => none
  | some ws =>
    match List.lookup uri ws.schemapathsForUri with
    | none => none
    | some p =>
      match List.lookup p ws.schemasForXsdpath with
      | none => none
      | some s => some (s, List.lookup p ws.defaultXmlnsForSchemapath)

/-- The tail of `did_change` after the immediate validation: cancel the
session's recorded timer if any, then arm a fresh timer capturing the
schema and default namespace, and record it in the session. -/
def armTimer {S L : Type} (σ : ServerState S L) (uri newContent : String)
    (s : S) (ns : Option String) (oldTimer : Option Nat) : ServerState S L :=
  let σ4 :=
    match oldTimer with
    | some tid => { σ with pending := σ.pending.filter (fun t => !(t.id == tid)) }
    | none => σ
  { σ4 with
    pending := σ4.pending ++ [⟨σ4.nextTimerId, uri, s, ns⟩],
    sessions := alInsert uri ⟨newContent, some σ4.nextTimerId⟩ σ4.sessions,
    nextTimerId := σ4.nextTimerId + 1 }

/-- `did_change` after the edits have produced new content: store it in the
session (keeping the previously recorded timer), look up the bound schema
(returning without validating when there is none), publish the immediate
validation, then cancel-and-arm the debounce timer. -/
def didChangeWithContent {S L : Type} (σ : ServerState S L) (uri : String)
    (oldTimer : Option Nat) (newContent : String) : ServerState S L :=
  match boundSchemaFor { σ with sessions := alInsert uri ⟨newContent, oldTimer⟩ σ.sessions } uri with
  | none => { σ with sessions := alInsert uri ⟨newContent, oldTimer⟩ σ.sessions }
  | some (s, ns) =>
    armTimer
      { σ with
        sessions := alInsert uri ⟨newContent, oldTimer⟩ σ.sessions,
        events := σ.events ++ [⟨uri, newContent, some s, ns⟩] }
      uri newContent s ns oldTimer

/-- `did_change` after the session exists: apply the edits (`none` aborts
the handler with the session untouched), then continue with the new
content. -/
def didChangeBody {S L : Type} (σ : ServerState S L)
    (uri : String) (sess : DocSession) (changes : List DocChange) : ServerState S L :=
  match applyIncrementalChanges sess.content changes with
  | none => σ
  | some newContent => didChangeWithContent σ uri sess.timer newContent

/-- `xmllsp.py:did_change`: recover a missing session by reading the file
from disk (a failed read drops the change), then run the body. -/
def didChange {S D L : Type} (env : OracleEnv S D L) (σ : ServerState S L)
    (uri : String) (changes : List DocChange) : ServerState S L :=
  match List.lookup uri σ.sessions with
  | some sess => didChangeBody σ uri sess changes
  | none =>
    match env.fsRead uri with
    | none => σ
    | some c0 =>
      didChangeBody { σ with sessions := alInsert uri ⟨c0, none⟩ σ.sessions }
        uri ⟨c0, none⟩ changes

/-- `xmllsp.py:did_open`: replace the session with a fresh one holding the
full text (dropping any recorded timer without cancelling it), resolve the
schema, record the URI's schema-path binding on success, and validate
(publishing an empty set when no schema resolved). -/
def didOpen {S D L : Type} (env : OracleEnv S D L) (σ : ServerState S L)
    (uri text : String) : ServerState S L :=
  let σ1 := { σ with sessions := alInsert uri ⟨text, none⟩ σ.sessions }
  match List.lookup (rootUriOf uri) σ1.workspaces with
  | none => { σ1 with events := σ1.events ++ [⟨uri, text, none, none⟩] }
  | some ws =>
    match getSchemaForDoc env ws uri text with
    | (some (s, p), ws1, _) =>
      let ws2 := { ws1 with schemapathsForUri := alInsert uri p ws1.schemapathsForUri }
      { σ1 with
        workspaces := alInsert (rootUriOf uri) ws2 σ1.workspaces,
        events := σ1.events ++
          [⟨uri, text, some s, List.lookup p ws2.defaultXmlnsForSchemapath⟩] }
    | (none, ws1, _) =>
      { σ1 with
        workspaces := alInsert (rootUriOf uri) ws1 σ1.workspaces,
        events := σ1.events ++ [⟨uri, text, none, none⟩] }

/-- `xmllsp.py:did_save`: re-read the file and replace the session with a
fresh dictionary (no validation, no publish; a failed read changes
nothing). -/
def didSave {S D L : Type} (env : OracleEnv S D L) (σ : ServerState S L)
    (uri : String) : ServerState S L :=
  match env.fsRead uri with
  | none => σ
  | some c => { σ with sessions := alInsert uri ⟨c, none⟩ σ.sessions }

/-- `xmllsp.py:did_close` (the same logic as
`workspace.py:Workspace.release_document`): drop the URI's schema-path
binding and, when no other open document references that path, unload the
schema object and its default-namespace entry.  The session store and the
timers are not touched. -/
def didClose {S L : Type} (σ : ServerState S L) (uri : String) : ServerState S L :=
  match List.lookup (rootUriOf uri) σ.workspaces with
  | none => σ
  | some ws =>
    match List.lookup uri ws.schemapathsForUri with
    | none => σ
    | some p =>
      let m1 := alErase uri ws.schemapathsForUri
      let ws1 := { ws with schemapathsForUri := m1 }
      let ws2 :=
        if (m1.map Prod.snd).contains p then ws1
        else
          { ws1 with
            schemasForXsdpath := alErase p ws1.schemasForXsdpath,
            defaultXmlnsForSchemapath := alErase p ws1.defaultXmlnsForSchemapath }
      { σ with workspaces := alInsert (rootUriOf uri) ws2 σ.workspaces }

/-- A pending timer with identifier `tid` fires: it stops being pending and
`deferred_validation` runs with the captured arguments, validating the
session's content as found in the store now (a vanished session makes it a
no-op). -/
def fireTimer {S L : Type} (σ : ServerState S L) (tid : Nat) : ServerState S L :=
  match σ.pending.find? (fun t => t.id == tid) with
  | none => σ
  | some t =>
    let σ1 := { σ with pending := σ.pending.eraseP (fun x => x.id == tid) }
    match List.lookup t.uri σ1.sessions with
    | none => σ1
    | some sess =>
      { σ1 with events := σ1.events ++ [⟨t.uri, sess.content, some t.schema, t.xmlns⟩] }

/-- The editor notifications plus the firing of a debounce timer. -/
inductive LspEvent where
  | openDoc (uri text : String)
  | changeDoc (uri : String) (changes : List DocChange)
  | saveDoc (uri : String)
  | closeDoc (uri : String)
  | fire (tid : Nat)
deriving DecidableEq

/-- Dispatch one event to its handler. -/
def step {S D L : Type} (env : OracleEnv S D L) (σ : ServerState S L) :
    LspEvent → ServerState S L
  | .openDoc uri text => didOpen env σ uri text
  | .changeDoc uri chs => didChange env σ uri chs
  | .saveDoc uri => didSave env σ uri
  | .closeDoc uri => didClose σ uri
  | .fire tid => fireTimer σ tid

/-- Run a sequence of events. -/
def run {S D L : Type} (env : OracleEnv S D L) (es : List LspEvent)
    (σ : ServerState S L) : ServerState S L :=
  es.foldl (step env) σ

/-- The pending timers of one document. -/
def pendingFor {S L : Type} (σ : ServerState S L) (u : String) : List (TimerInfo S) :=
  σ.pending.filter (fun t => t.uri == u)

/-- The timer identifier recorded in a document's session, if any. -/
def sessionTimer {S L : Type} (σ : ServerState S L) (u : String) : Option Nat :=
  (List.lookup u σ.sessions).bind DocSession.timer

/-- The debounce invariant for one document: at most one pending timer, and
every pending timer for the document is the one its session records. -/
def timersOk {S L : Type} (σ : ServerState S L) (u : String) : Prop :=
  (pendingFor σ u).length ≤ 1 ∧
  ∀ t ∈ σ.pending, t.uri = u → sessionTimer σ u = some t.id

/-- Events that never replace a session wholesale: change, close and timer
fire (open and save install a fresh session dictionary). -/
def noReopenEvent : LspEvent → Prop
  | .changeDoc _ _ => True
  | .closeDoc _ => True
  | .fire _ => True
  | _ => False

/-- Events that may rebind or release schema bindings but do not touch the
timer set: open, save and close. -/
def bindingOnlyEvent : LspEvent → Prop
  | .openDoc _ _ => True
  | .saveDoc _ => True
  | .closeDoc _ => True
  | _ => False

/-- The schema-resolution outcome of `did_open` for a given state. -/
def openResolved {S D L : Type} (env : OracleEnv S D L) (σ : ServerState S L)
    (uri text : String) : Option (S × String) :=
  match List.lookup (rootUriOf uri) σ.workspaces with
  | none => none
  | some ws => (getSchemaForDoc env ws uri text).1

/-! ## Concrete instances used by witnesses and counterexamples -/

/-- An oracle environment in which every document parses, the single
locator yields `"s.xsd"`, and loading yields the schema object `7`. -/
def envC : OracleEnv Nat Unit Unit where
  parse := fun _ => some ()
  evalLocator := fun _ _ _ => some ("s.xsd", false)
  loadSchema := fun _ => some 7
  targetNamespace := fun _ => none
  fsRead := fun _ => none

/-- `envC` with a readable backing file. -/
def envS : OracleEnv Nat Unit Unit where
  parse := fun _ => some ()
  evalLocator := fun _ _ _ => some ("s.xsd", false)
  loadSchema := fun _ => some 7
  targetNamespace := fun _ => none
  fsRead := fun _ => some "<r>2</r>"

/-- A workspace with one locator, schema `7` loaded for `"s.xsd"`, and the
document `"w/a"` bound to it. -/
def wsC : SchemaWorkspace Nat Unit :=
  ⟨[()], [("s.xsd", 7)], [("w/a", "s.xsd")], []⟩

/-- A server state with workspace `wsC` under root `"w"` and an open session
for `"w/a"`. -/
def stC : ServerState Nat Unit :=
  ⟨[("w", wsC)], [("w/a", ⟨"<r/>", none⟩)], [], 0, []⟩

/-- An empty initial state whose workspace has one locator and nothing
cached. -/
def st0 : ServerState Nat Unit :=
  ⟨[("w", ⟨[()], [], [], []⟩)], [], [], 0, []⟩

/-- Open, change, re-open during the debounce window, change again. -/
def traceReopen : List LspEvent :=
  [.openDoc "w/a" "<r/>", .changeDoc "w/a" [.full "c1"],
   .openDoc "w/a" "<r/>", .changeDoc "w/a" [.full "c2"]]

end XmlLsp

namespace XmlLsp

/-! ## Position translator: supporting lemmas -/

/-- Total length is preserved by keepends line splitting. -/
theorem sumLen_splitlinesAux (acc l : List Char) :
    ((splitlinesAux acc l).map List.length).sum = acc.length + l.length := by
  induction acc, l using splitlinesAux.induct with
  | case1 acc h =>
    simp only [splitlinesAux, h]
    simp [List.isEmpty_iff.mp h]
  | case2 acc h =>
    simp only [splitlinesAux, h]
    simp
  | case3 acc rest2 ih =>
    simp only [splitlinesAux]
    simp [ih]
    omega
  | case4 acc c2 rest2 hne ih =>
    simp only [splitlinesAux]
    simp [hne, ih]
    omega
  | case5 acc ih =>
    simp only [splitlinesAux]
    simp [ih]
  | case6 acc c rest hne hlb ih =>
    rw [splitlinesAux.eq_def]
    simp [hne, hlb, ih]
    omega
  | case7 acc c rest hne hlb ih =>
    rw [splitlinesAux.eq_def]
    simp [hne, hlb, ih]
    omega

/-- The lines of `splitlines` carry the full content length. -/
theorem sum_length_splitlines (s : String) :
    ((splitlines s).map String.length).sum = s.length := by
  have h := sumLen_splitlinesAux [] s.data
  have h2 : (splitlines s).map String.length = (splitlinesAux [] s.data).map List.length := by
    simp only [splitlines, List.map_map]
    rfl
  rw [h2, h]
  simp only [List.length_nil, Nat.zero_add]
  rfl

/-- The same after the `if not lines` fix-up. -/
theorem sum_length_fixLines (s : String) :
    ((fixLines (splitlines s)).map String.length).sum = s.length := by
  by_cases h : splitlines s = []
  · have h0 := sum_length_splitlines s
    rw [h] at h0
    simp at h0
    simp [fixLines, h]
    omega
  · simp [fixLines, h, sum_length_splitlines]

/-- The offset loop succeeds exactly on line indexes up to the number of
lines, returning the summed lengths of the skipped lines. -/
theorem sumTake_of_le (n : Nat) :
    ∀ lines : List String, n ≤ lines.length →
      sumTake lines n = some (((lines.take n).map String.length).sum) := by
  induction n with
  | zero => intro lines _; simp [sumTake]
  | succ n ih =>
    intro lines h
    match lines with
    | [] => simp at h
    | l :: ls =>
      have h' : n ≤ ls.length := by simpa using h
      simp [sumTake, ih ls h']

/-- The offset loop raises `IndexError` past the number of lines. -/
theorem sumTake_of_gt (n : Nat) :
    ∀ lines : List String, lines.length < n → sumTake lines n = none := by
  induction n with
  | zero => intro lines h; simp at h
  | succ n ih =>
    intro lines h
    match lines with
    | [] => simp [sumTake]
    | l :: ls =>
      have h' : ls.length < n := by simpa using h
      simp [sumTake, ih ls h']

/-! ## Theorems for claim C1 -/

/-- C1: the claim that `_pos_to_offset2` never raises and returns the content
length for positions at or past the end is false: on empty content at
position `(0, 5)` it returns offset `5`, not the content length `0`, and on
`"ab"` at position `(2, 0)` it raises `IndexError` (modelled as `none`)
instead of returning `2`. -/
theorem c1_offset_clamp_counterexample :
    posToOffset2 "" 0 5 = some 5 ∧ some 5 ≠ some (String.length "") ∧
    posToOffset2 "ab" 2 0 = none := by
  refine ⟨by decide, by decide, by decide⟩

/-- C1 (amended): `_pos_to_offset2` treats empty content as one empty line;
for a position whose line index is at most the number of lines it returns,
without exception, the summed lengths of the preceding lines plus the
character index — equal to the content length at position
`(number-of-lines, 0)` but exceeding it when the character index runs past
the line end — while a line index greater than the number of lines raises
`IndexError` instead of returning the content length. -/
theorem c1_offset_amended (content : String) (line char : Nat) :
    fixLines (splitlines "") = [""] ∧
    (line ≤ (fixLines (splitlines content)).length →
      posToOffset2 content line char =
        some ((((fixLines (splitlines content)).take line).map String.length).sum + char)) ∧
    ((fixLines (splitlines content)).length < line →
      posToOffset2 content line char = none) ∧
    posToOffset2 content (fixLines (splitlines content)).length 0 = some content.length := by
  refine ⟨by decide, ?_, ?_, ?_⟩
  · intro h
    simp [posToOffset2, posToOffset, sumTake_of_le line _ h]
  · intro h
    simp [posToOffset2, posToOffset, sumTake_of_gt line _ h]
  · have h := sumTake_of_le (fixLines (splitlines content)).length
      (fixLines (splitlines content)) le_rfl
    simp [posToOffset2, posToOffset, h, List.take_length, sum_length_fixLines]

/-- Witness for C1 (amended) at content `"ab\ncd"`, position `(1, 1)`. -/
theorem c1_offset_amended_witness :
    posToOffset2 "ab\ncd" 1 1 =
      some ((((fixLines (splitlines "ab\ncd")).take 1).map String.length).sum + 1) :=
  (c1_offset_amended "ab\ncd" 1 1).2.1 (by decide)

/-! ## Theorems for claim C6 -/

/-- C6: the claim that every edit of a batch is processed in order is false:
in the batch `[full "ab", insert "c" at (0,0)]` the code returns `"ab"`,
dropping the edit that follows the full replacement, whereas processing both
edits in order (the spec's stated semantics, `applyEditsSequential`) yields
`"cab"`. -/
theorem c6_batch_order_counterexample :
    applyIncrementalChanges "z" [.full "ab", .ranged 0 0 0 0 "c"] = some "ab" ∧
    applyEditsSequential "z" [.full "ab", .ranged 0 0 0 0 "c"] = some "cab" ∧
    (some "ab" : Option String) ≠ some "cab" := by
  refine ⟨by decide, by decide, by decide⟩

/-- C6 (amended): range edits are applied in the order received, each
against the content left by the previous edit; the first full-document
replacement in a batch terminates processing, yielding exactly its
replacement text and discarding the prior content and any remaining edits —
regardless of earlier range edits, provided they computed in-bounds offsets
(an earlier out-of-bounds edit raises instead). -/
theorem c6_apply_edits_amended :
    (∀ content t rest,
      applyIncrementalChanges content (DocChange.full t :: rest) = some t) ∧
    (∀ content sl sc el ec t rest,
      applyIncrementalChanges content (DocChange.ranged sl sc el ec t :: rest) =
        (applyRanged content sl sc el ec t).bind
          (fun c => applyIncrementalChanges c rest)) ∧
    (∀ content pre t rest, (∀ e ∈ pre, e.isRanged) →
      applyIncrementalChanges content (pre ++ DocChange.full t :: rest) =
        (applyIncrementalChanges content pre).map (fun _ => t)) := by
  refine ⟨fun content t rest => rfl, ?_, ?_⟩
  · intro content sl sc el ec t rest
    cases h : applyRanged content sl sc el ec t <;>
      simp [applyIncrementalChanges, h]
  · intro content pre
    induction pre generalizing content with
    | nil => intro t rest _; simp [applyIncrementalChanges]
    | cons e pre ih =>
      intro t rest h
      have he : e.isRanged := h e (by simp)
      match e with
      | .full _ => exact absurd he (by simp [DocChange.isRanged])
      | .ranged sl sc el ec txt =>
        have hrest : ∀ x ∈ pre, x.isRanged := fun x hx => h x (by simp [hx])
        cases hr : applyRanged content sl sc el ec txt with
        | none => simp [applyIncrementalChanges, hr]
        | some c => simp [applyIncrementalChanges, hr, ih c t rest hrest]

/-- Witness for C6 (amended): a range edit before a full replacement, with a
discarded trailing edit. -/
theorem c6_apply_edits_amended_witness :
    applyIncrementalChanges "xy"
        ([DocChange.ranged 0 0 0 1 "A"] ++ DocChange.full "done" :: [DocChange.ranged 0 0 0 0 "B"]) =
      (applyIncrementalChanges "xy" [DocChange.ranged 0 0 0 1 "A"]).map (fun _ => "done") :=
  c6_apply_edits_amended.2.2 "xy" [DocChange.ranged 0 0 0 1 "A"] "done"
    [DocChange.ranged 0 0 0 0 "B"]
    (by intro e he; simp at he; subst he; simp [DocChange.isRanged])

/-! ## Theorem for claim C5 -/

/-- C5: with root element name `"../../etc"`, a search path
`"/cfg/schemas"`, and a filesystem in which the traversal target exists,
the validated locator of `workspace.py` yields no candidate and performs no
filesystem probe, but the locator of `xmllsp.py` probes and returns
`"/cfg/schemas/../../etc.xsd"`, which resolves to `"/etc.xsd"` — outside the
configured search directory.  The claim is right about the former and
violated by the latter. -/
theorem c5_rootelement_traversal :
    findSchemapathByRootelementW "../../etc" ["/cfg/schemas"]
        (fun p => p == "/cfg/schemas/../../etc.xsd") = (none, []) ∧
    findSchemapathByRootelementX "../../etc" ["/cfg/schemas"]
        (fun p => p == "/cfg/schemas/../../etc.xsd") =
      (some "/cfg/schemas/../../etc.xsd", ["/cfg/schemas/../../etc.xsd"]) ∧
    resolvePath "/cfg/schemas/../../etc.xsd" = "/etc.xsd" ∧
    ("/cfg/schemas".data.isPrefixOf "/etc.xsd".data) = false := by
  refine ⟨by decide, by decide, by decide, by decide⟩

/-! ## Theorem for claim C8 -/

/-- C8: on a parser exception whose string form ends in
`": line 3, column 5"`, the `xmllsp.py` fallback publishes exactly one
diagnostic whose message is the text before the pattern at zero-based
position `(2, 4)` — as the claim states — while the cited `server.py`
revision of the same fallback publishes it at line `1` (it subtracts 2, with
the comment wondering why), and at `"line 1"` it even produces line `-1`.
Without the pattern no diagnostic is emitted. -/
theorem c8_exception_diagnostic :
    parserExceptionDiagnostics "not well-formed (invalid token): line 3, column 5" =
      [⟨"not well-formed (invalid token)", 2, 4⟩] ∧
    parserExceptionDiagnosticsServer "not well-formed (invalid token): line 3, column 5" =
      [⟨"not well-formed (invalid token)", 1, 4⟩] ∧
    ((1 : Int) ≠ 3 - 1) ∧
    parserExceptionDiagnostics "no location info" = [] ∧
    parserExceptionDiagnosticsServer "x: line 1, column 1" = [⟨"x", -1, 0⟩] := by
  refine ⟨by decide, by decide, by decide, by decide, by decide⟩

/-! ## Completion candidates: supporting lemmas -/

/-- A `None` type contributes no derivation chain. -/
theorem typeDerivationChain_none (tenv : List (Nat × XsdTypeInfo)) :
    ∀ fuel visited, typeDerivationChain tenv fuel none visited = [] := by
  intro fuel visited
  cases fuel <;> simp [typeDerivationChain]

/-- A name is collected by `_get_elements_from_type` exactly when it is a
rendered content-model name of some type on the derivation chain (the
matched type and its recursive ancestor base types, cut by the visited
guard). -/
theorem mem_getElementsFromType (tenv : List (Nat × XsdTypeInfo)) (ns : Option String) :
    ∀ (fuel : Nat) (t : Option Nat) (visited : List Nat) (x : String),
      x ∈ getElementsFromType tenv fuel t ns visited ↔
        ∃ tid info, tid ∈ typeDerivationChain tenv fuel t visited ∧
          List.lookup tid tenv = some info ∧ x ∈ renderedContentNames info ns := by
  intro fuel
  induction fuel with
  | zero =>
    intro t visited x
    simp [getElementsFromType, typeDerivationChain]
  | succ fuel ih =>
    intro t visited x
    match t with
    | none => simp [getElementsFromType, typeDerivationChain]
    | some tid =>
      by_cases hv : tid ∈ visited
      · simp [getElementsFromType, typeDerivationChain, hv]
      · cases hl : List.lookup tid tenv with
        | none =>
          simp [getElementsFromType, typeDerivationChain, hv, hl, typeDerivationChain_none]
        | some info =>
          simp only [getElementsFromType, typeDerivationChain, hl, Option.bind_some]
          rw [if_neg hv, if_neg hv, List.mem_append, ih]
          constructor
          · rintro (hx | ⟨tid', info', hc, hl', hx⟩)
            · exact ⟨tid, info, by simp, hl, hx⟩
            · exact ⟨tid', info', by simp [hc], hl', hx⟩
          · rintro ⟨tid', info', hc, hl', hx⟩
            rcases List.mem_cons.mp hc with h1 | h2
            · subst h1
              rw [hl] at hl'
              cases hl'
              exact Or.inl hx
            · exact Or.inr ⟨tid', info', h2, hl', hx⟩

/-! ## Theorem for claim C9 -/

/-- C9: the candidate list returned for a matched parent element is sorted
and duplicate-free, and contains exactly the names collected from the
matched element's type's content model and, recursively, from every
ancestor base type on its derivation chain (with the visited-node cycle
guard), duplicates across the content model and base-type chain
collapsed. -/
theorem c9_completion_candidates (tenv : List (Nat × XsdTypeInfo)) (t : Option Nat)
    (ns : Option String) :
    (candidateChildNames tenv t ns).Sorted (· ≤ ·) ∧
    (candidateChildNames tenv t ns).Nodup ∧
    ∀ x, x ∈ candidateChildNames tenv t ns ↔
      ∃ tid info, tid ∈ typeDerivationChain tenv (tenv.length + 1) t [] ∧
        List.lookup tid tenv = some info ∧ x ∈ renderedContentNames info ns := by
  refine ⟨List.sorted_insertionSort _ _, ?_, ?_⟩
  · exact (List.perm_insertionSort _ _).nodup_iff.mpr (List.nodup_dedup _)
  · intro x
    rw [candidateChildNames, List.mem_insertionSort, List.mem_dedup,
      mem_getElementsFromType]

/-! ## Theorem for claim C7 -/

/-- C7: schema resolution is idempotent over the workspace cache: when the
content parses and the URI already maps to a schema path whose schema object
is still loaded, `_get_schema_for_doc` returns exactly that cached
`(schema, schema-path)` pair, leaves the workspace unchanged, and evaluates
no locator. -/
theorem c7_resolution_idempotent {S D L : Type} (env : OracleEnv S D L)
    (ws : SchemaWorkspace S L) (uri content : String) (d : D) (p : String) (s : S)
    (hparse : env.parse content = some d)
    (hmap : List.lookup uri ws.schemapathsForUri = some p)
    (hloaded : List.lookup p ws.schemasForXsdpath = some s) :
    getSchemaForDoc env ws uri content = (some (s, p), ws, []) := by
  simp [getSchemaForDoc, hparse, hmap, hloaded]

/-- Witness for C7 at the concrete workspace `wsC`. -/
theorem c7_resolution_idempotent_witness :
    getSchemaForDoc envC wsC "w/a" "<r/>" = (some (7, "s.xsd"), wsC, ([] : List Unit)) :=
  c7_resolution_idempotent envC wsC "w/a" "<r/>" () "s.xsd" 7 rfl (by decide) (by decide)

/-! ## Dictionary lemmas -/

/-- Filtering out another key does not change a lookup. -/
theorem lookup_filterOut {β : Type} (k u : String) (l : List (String × β)) (h : ¬ u = k) :
    List.lookup u (l.filter (fun p => !(p.1 == k))) = List.lookup u l := by
  induction l with
  | nil => rfl
  | cons a l ih =>
    obtain ⟨a1, a2⟩ := a
    by_cases hak : a1 = k
    · subst hak
      have hu : (u == a1) = false := by simp [h]
      simp [List.filter_cons, List.lookup, hu, ih]
    · by_cases hua : u = a1
      · subst hua
        simp [List.filter_cons, hak, List.lookup]
      · have hu : (u == a1) = false := by simp [hua]
        simp [List.filter_cons, hak, List.lookup, hu, ih]

/-- Lookup after a dictionary update. -/
theorem lookup_alInsert {β : Type} (k u : String) (v : β) (l : List (String × β)) :
    List.lookup u (alInsert k v l) = if u = k then some v else List.lookup u l := by
  by_cases h : u = k
  · subst h
    simp [alInsert, List.lookup]
  · have hu : (u == k) = false := by simp [h]
    simp [alInsert, List.lookup, hu, h, lookup_filterOut k u l h]

/-- An erased key no longer resolves. -/
theorem lookup_alErase_self {β : Type} (k : String) (l : List (String × β)) :
    List.lookup k (alErase k l) = none := by
  induction l with
  | nil => rfl
  | cons a l ih =>
    obtain ⟨a1, a2⟩ := a
    by_cases hak : a1 = k
    · subst hak
      simp [alErase, List.filter_cons] at ih ⊢
      exact ih
    · have hk : (k == a1) = false := by
        simp
        exact fun h => hak h.symm
      simp [alErase, List.filter_cons, hak, List.lookup, hk] at ih ⊢
      exact ih

/-- Erasing one key leaves the others. -/
theorem lookup_alErase_ne {β : Type} (k u : String) (l : List (String × β)) (h : ¬ u = k) :
    List.lookup u (alErase k l) = List.lookup u l :=
  lookup_filterOut k u l h

/-! ## Theorems for claim C2 -/

/-- C2: the claim that closing a document removes its session is false:
in the concrete state `stC`, `did_close` releases the workspace bindings
(the schema-path binding, the loaded schema and the namespace entries are
gone) yet the session store still holds the session — nothing in `did_close`
touches `session_cache`. -/
theorem c2_close_session_counterexample :
    (didClose stC "w/a").workspaces = [("w", ⟨[()], [], [], []⟩)] ∧
    List.lookup "w/a" (didClose stC "w/a").sessions = some ⟨"<r/>", none⟩ ∧
    (some (⟨"<r/>", none⟩ : DocSession) ≠ none) := by
  refine ⟨by decide, by decide, by decide⟩

/-- C2 (amended): closing an open document releases the URI's schema-path
binding, and when no other open document references the schema path it also
unloads the schema object and the default-namespace entry; but the URI's
session is not removed from the session store (it is left to TTL eviction),
and the pending timers are untouched. -/
theorem c2_close_amended {S L : Type} (σ : ServerState S L) (uri : String)
    (ws : SchemaWorkspace S L) (p : String)
    (hw : List.lookup (rootUriOf uri) σ.workspaces = some ws)
    (hb : List.lookup uri ws.schemapathsForUri = some p) :
    (didClose σ uri).sessions = σ.sessions ∧
    (didClose σ uri).pending = σ.pending ∧
    ∃ ws2, List.lookup (rootUriOf uri) (didClose σ uri).workspaces = some ws2 ∧
      List.lookup uri ws2.schemapathsForUri = none ∧
      (((alErase uri ws.schemapathsForUri).map Prod.snd).contains p = false →
        List.lookup p ws2.schemasForXsdpath = none ∧
        List.lookup p ws2.defaultXmlnsForSchemapath = none) ∧
      (((alErase uri ws.schemapathsForUri).map Prod.snd).contains p = true →
        ws2.schemasForXsdpath = ws.schemasForXsdpath) := by
  simp only [didClose, hw, hb]
  by_cases hc : ((alErase uri ws.schemapathsForUri).map Prod.snd).contains p = true
  · rw [if_pos hc]
    refine ⟨trivial, trivial,
      { ws with schemapathsForUri := alErase uri ws.schemapathsForUri }, ?_, ?_, ?_, ?_⟩
    · rw [lookup_alInsert]
      simp
    · exact lookup_alErase_self uri ws.schemapathsForUri
    · intro hf
      rw [hc] at hf
      cases hf
    · intro _
      rfl
  · rw [if_neg hc]
    refine ⟨trivial, trivial,
      { ws with schemapathsForUri := alErase uri ws.schemapathsForUri,
                schemasForXsdpath := alErase p ws.schemasForXsdpath,
                defaultXmlnsForSchemapath := alErase p ws.defaultXmlnsForSchemapath },
      ?_, ?_, ?_, ?_⟩
    · rw [lookup_alInsert]
      simp
    · exact lookup_alErase_self uri ws.schemapathsForUri
    · intro _
      exact ⟨lookup_alErase_self p _, lookup_alErase_self p _⟩
    · intro ht
      exact absurd ht hc

/-- Witness for C2 (amended) at the concrete state `stC`. -/
theorem c2_close_amended_witness :
    (didClose stC "w/a").sessions = stC.sessions :=
  (c2_close_amended stC "w/a" wsC "s.xsd" (by decide) (by decide)).1

/-! ## Theorems for claim C3 -/

/-- `boundSchemaFor` only reads the workspace table. -/
theorem boundSchemaFor_sessions {S L : Type} (σ : ServerState S L)
    (ss : List (String × DocSession)) (uri : String) :
    boundSchemaFor { σ with sessions := ss } uri = boundSchemaFor σ uri := rfl

/-- C3: the claim that open, save and change each trigger a synchronous
validation pass (publishing an empty set when no schema is bound) is false:
saving publishes nothing (it only refreshes the session content from disk),
and a change with no bound schema returns without publishing. -/
theorem c3_no_validation_counterexample :
    (didSave envS stC "w/a").sessions = [("w/a", ⟨"<r>2</r>", none⟩)] ∧
    (didSave envS stC "w/a").events = [] ∧
    (didChange envC ⟨[("w", ⟨[()], [], [], []⟩)], [("w/a", ⟨"<r/>", none⟩)], [], 0, []⟩
      "w/a" [.full "x"]).events = [] := by
  refine ⟨by decide, by decide, by decide⟩

/-- C3 (amended): opening always triggers exactly one synchronous validation
publish of the opened text, with an empty diagnostic set (schema `none`)
when resolution yields no schema; a change triggers the synchronous pass
only when a schema is already bound and loaded for the URI — otherwise the
handler returns without publishing; saving refreshes the session content
from disk and publishes nothing. -/
theorem c3_validation_amended {S D L : Type} (env : OracleEnv S D L) (σ : ServerState S L) :
    (∀ uri text, ∃ ns, (didOpen env σ uri text).events =
      σ.events ++ [⟨uri, text, (openResolved env σ uri text).map Prod.fst, ns⟩]) ∧
    (∀ uri sess chs newC s ns,
      List.lookup uri σ.sessions = some sess →
      applyIncrementalChanges sess.content chs = some newC →
      boundSchemaFor σ uri = some (s, ns) →
      (didChange env σ uri chs).events = σ.events ++ [⟨uri, newC, some s, ns⟩]) ∧
    (∀ uri sess chs,
      List.lookup uri σ.sessions = some sess →
      boundSchemaFor σ uri = none →
      (didChange env σ uri chs).events = σ.events) ∧
    (∀ uri, (didSave env σ uri).events = σ.events) := by
  refine ⟨?_, ?_, ?_, ?_⟩
  · intro uri text
    simp only [didOpen, openResolved]
    cases hw : List.lookup (rootUriOf uri) σ.workspaces with
    | none => exact ⟨none, by simp⟩
    | some ws =>
      rcases hg : getSchemaForDoc env ws uri text with ⟨res, ws1, tr⟩
      cases res with
      | some sp =>
        obtain ⟨s, p⟩ := sp
        refine ⟨List.lookup p ws1.defaultXmlnsForSchemapath, ?_⟩
        simp [hg]
      | none => exact ⟨none, by simp [hg]⟩
  · intro uri sess chs newC s ns hs ha hbnd
    simp only [didChange, hs, didChangeBody, ha, didChangeWithContent,
      boundSchemaFor_sessions, hbnd]
    cases ht : sess.timer <;> simp [armTimer, ht]
  · intro uri sess chs hs hbnd
    simp only [didChange, hs, didChangeBody]
    cases ha : applyIncrementalChanges sess.content chs with
    | none => rfl
    | some newC =>
      show (didChangeWithContent σ uri sess.timer newC).events = σ.events
      simp [didChangeWithContent, boundSchemaFor_sessions, hbnd]
  · intro uri
    cases h : env.fsRead uri <;> simp [didSave, h]

/-- Witness for C3 (amended): a change on `stC` with its bound schema
publishes exactly one immediate validation of the new content. -/
theorem c3_validation_amended_witness :
    (didChange envC stC "w/a" [DocChange.full "c9"]).events =
      stC.events ++ [⟨"w/a", "c9", some 7, none⟩] :=
  (c3_validation_amended envC stC).2.1 "w/a" ⟨"<r/>", none⟩ [DocChange.full "c9"] "c9" 7 none
    (by decide) (by decide) (by decide)

/-! ## Theorems for claim C10 -/

/-- Open, save and close never touch the set of pending timers. -/
theorem pending_of_bindingOnly {S D L : Type} (env : OracleEnv S D L) (σ : ServerState S L)
    (e : LspEvent) (he : bindingOnlyEvent e) : (step env σ e).pending = σ.pending := by
  match e with
  | .openDoc uri text =>
    simp only [step, didOpen]
    split
    · rfl
    · split <;> rfl
  | .saveDoc uri =>
    simp only [step, didSave]
    split <;> rfl
  | .closeDoc uri =>
    simp only [step, didClose]
    split
    · rfl
    · split <;> rfl

/-- The same along a whole sequence of such events. -/
theorem pending_of_bindingOnly_run {S D L : Type} (env : OracleEnv S D L)
    (es : List LspEvent) (hes : ∀ e ∈ es, bindingOnlyEvent e) (σ : ServerState S L) :
    (run env es σ).pending = σ.pending := by
  induction es generalizing σ with
  | nil => rfl
  | cons e es ih =>
    have h1 := pending_of_bindingOnly env σ e (hes e (by simp))
    have h2 := ih (fun x hx => hes x (by simp [hx])) (step env σ e)
    simp only [run, List.foldl] at h2 ⊢
    rw [h2, h1]

/-- C10: a timer armed with a captured schema and default-namespace override
survives any sequence of open, save and close notifications (which may
rebind or release the document's schema binding), and when it fires it
publishes a validation of the session content as found in the store at fire
time together with the arm-time schema and namespace from its payload. -/
theorem c10_armtime_schema {S D L : Type} (env : OracleEnv S D L) (σ : ServerState S L)
    (t : TimerInfo S) (es : List LspEvent)
    (hes : ∀ e ∈ es, bindingOnlyEvent e)
    (hfind : σ.pending.find? (fun x => x.id == t.id) = some t) :
    (run env es σ).pending.find? (fun x => x.id == t.id) = some t ∧
    ∀ sess, List.lookup t.uri (run env es σ).sessions = some sess →
      (fireTimer (run env es σ) t.id).events =
        (run env es σ).events ++ [⟨t.uri, sess.content, some t.schema, t.xmlns⟩] := by
  have hp := pending_of_bindingOnly_run env es hes σ
  constructor
  · rw [hp]
    exact hfind
  · intro sess hs
    simp only [fireTimer, hp, hfind]
    simp [hs]

/-- A state with one armed timer for `"w/a"` capturing schema `7`. -/
def stT : ServerState Nat Unit := { stC with pending := [⟨0, "w/a", 7, none⟩] }

/-- Witness for C10: after a close releases the binding, the timer still
fires with the arm-time schema `7` and the fire-time content. -/
theorem c10_armtime_schema_witness :
    (fireTimer (run envC [LspEvent.closeDoc "w/a"] stT) 0).events =
      (run envC [LspEvent.closeDoc "w/a"] stT).events ++ [⟨"w/a", "<r/>", some 7, none⟩] := by
  have h := c10_armtime_schema envC stT ⟨0, "w/a", 7, none⟩ [LspEvent.closeDoc "w/a"]
    (by intro e he; simp at he; subst he; trivial) (by decide)
  exact h.2 ⟨"<r/>", none⟩ (by decide)

/-! ## Debounce invariant: supporting lemmas for claim C4 -/

/-- The recorded timer after a session update. -/
theorem sessionTimer_eq {S L : Type} (σ' σ : ServerState S L) (k : String) (d : DocSession)
    (u : String) (hss : σ'.sessions = alInsert k d σ.sessions) :
    sessionTimer σ' u = if u = k then d.timer else sessionTimer σ u := by
  by_cases h : u = k <;> simp [sessionTimer, hss, lookup_alInsert, h]

/-- The recorded timer is stable under changes that keep the sessions. -/
theorem sessionTimer_congr {S L : Type} (σ' σ : ServerState S L) (u : String)
    (hss : σ'.sessions = σ.sessions) : sessionTimer σ' u = sessionTimer σ u := by
  simp [sessionTimer, hss]

/-- `timersOk` transports along states with equal pending lists and equal
recorded timers. -/
theorem timersOk_congr {S L : Type} (σ' σ : ServerState S L) (u : String)
    (hp : σ'.pending = σ.pending) (hst : sessionTimer σ' u = sessionTimer σ u)
    (h : timersOk σ u) : timersOk σ' u := by
  constructor
  · have : pendingFor σ' u = pendingFor σ u := by simp [pendingFor, hp]
    rw [this]
    exact h.1
  · intro t ht htu
    rw [hst, hp] at *
    exact h.2 t ht htu

/-- `timersOk` is preserved when the pending list only shrinks. -/
theorem timersOk_anti {S L : Type} (σ' σ : ServerState S L) (u : String)
    (hsub : σ'.pending.Sublist σ.pending) (hst : sessionTimer σ' u = sessionTimer σ u)
    (h : timersOk σ u) : timersOk σ' u := by
  constructor
  · have hsub2 : (pendingFor σ' u).Sublist (pendingFor σ u) :=
      List.Sublist.filter _ hsub
    exact le_trans hsub2.length_le h.1
  · intro t ht htu
    rw [hst]
    exact h.2 t (hsub.subset ht) htu

/-- With no recorded timer, no timer for the document is pending. -/
theorem filter_uri_eq_nil_of_none {S L : Type} (σ : ServerState S L) (u : String)
    (hok : timersOk σ u) (hst : sessionTimer σ u = none) :
    σ.pending.filter (fun t => t.uri == u) = [] := by
  rw [List.filter_eq_nil_iff]
  intro t ht htu
  have hu : t.uri = u := by simpa using htu
  have h2 := hok.2 t ht hu
  rw [hst] at h2
  cases h2

/-- Cancelling the recorded timer removes every pending timer of the
document. -/
theorem filter_uri_eq_nil_of_some {S L : Type} (σ : ServerState S L) (u : String) (tid : Nat)
    (hok : timersOk σ u) (hst : sessionTimer σ u = some tid) :
    (σ.pending.filter (fun t => !(t.id == tid))).filter (fun t => t.uri == u) = [] := by
  rw [List.filter_eq_nil_iff]
  intro t ht htu
  have ht' := List.mem_filter.mp ht
  have hu : t.uri = u := by simpa using htu
  have h2 := hok.2 t ht'.1 hu
  rw [hst] at h2
  have hid : t.id = tid := by
    cases h2
    rfl
  have := ht'.2
  simp [hid] at this

/-- The cancel-then-arm tail of `did_change` preserves the debounce
invariant: after it, the changed document has exactly the one new pending
timer, and other documents keep theirs. -/
theorem timersOk_armTimer {S L : Type} (σ : ServerState S L) (u' newC : String)
    (s : S) (ns : Option String) (oldT : Option Nat) (u : String)
    (hst : sessionTimer σ u' = oldT) (h : timersOk σ u) :
    timersOk (armTimer σ u' newC s ns oldT) u := by
  cases oldT with
  | none =>
    by_cases hu : u = u'
    · subst hu
      have hnil := filter_uri_eq_nil_of_none σ u h hst
      constructor
      · simp only [armTimer, pendingFor, List.filter_append, hnil]
        simp
      · intro t ht htu
        simp only [armTimer, List.mem_append] at ht
        rcases ht with ht | ht
        · exfalso
          have hmem : t ∈ σ.pending.filter (fun t => t.uri == u) :=
            List.mem_filter.mpr ⟨ht, by simp [htu]⟩
          rw [hnil] at hmem
          cases hmem
        · have heq : t = ⟨σ.nextTimerId, u, s, ns⟩ := by simpa using ht
          subst heq
          rw [sessionTimer_eq _ σ u ⟨newC, some σ.nextTimerId⟩ u rfl]
          simp
    · constructor
      · have hpf : pendingFor (armTimer σ u' newC s ns none) u = pendingFor σ u := by
          simp only [armTimer, pendingFor, List.filter_append]
          have hfalse : ((⟨σ.nextTimerId, u', s, ns⟩ : TimerInfo S).uri == u) = false := by
            simp
            exact fun hh => hu hh.symm
          simp [hfalse]
        rw [hpf]
        exact h.1
      · intro t ht htu
        simp only [armTimer, List.mem_append] at ht
        rcases ht with ht | ht
        · have h2 := h.2 t ht htu
          rw [sessionTimer_eq _ σ u' ⟨newC, some σ.nextTimerId⟩ u rfl, if_neg hu]
          exact h2
        · exfalso
          have heq : t = ⟨σ.nextTimerId, u', s, ns⟩ := by simpa using ht
          rw [heq] at htu
          exact hu (htu.symm)
  | some tid =>
    by_cases hu : u = u'
    · subst hu
      have hnil := filter_uri_eq_nil_of_some σ u tid h hst
      constructor
      · simp only [armTimer, pendingFor, List.filter_append, hnil]
        simp
      · intro t ht htu
        simp only [armTimer, List.mem_append] at ht
        rcases ht with ht | ht
        · exfalso
          have hmem : t ∈ (σ.pending.filter (fun t => !(t.id == tid))).filter
              (fun t => t.uri == u) :=
            List.mem_filter.mpr ⟨ht, by simp [htu]⟩
          rw [hnil] at hmem
          cases hmem
        · have heq : t = ⟨σ.nextTimerId, u, s, ns⟩ := by simpa using ht
          subst heq
          rw [sessionTimer_eq _ σ u ⟨newC, some σ.nextTimerId⟩ u rfl]
          simp
    · constructor
      · have hsub : pendingFor (armTimer σ u' newC s ns (some tid)) u =
            (σ.pending.filter (fun t => !(t.id == tid))).filter (fun t => t.uri == u) := by
          simp only [armTimer, pendingFor, List.filter_append]
          have hfalse : ((⟨σ.nextTimerId, u', s, ns⟩ : TimerInfo S).uri == u) = false := by
            simp
            exact fun hh => hu hh.symm
          simp [hfalse]
        rw [hsub]
        calc ((σ.pending.filter (fun t => !(t.id == tid))).filter (fun t => t.uri == u)).length
            ≤ (σ.pending.filter (fun t => t.uri == u)).length :=
              List.Sublist.length_le (List.Sublist.filter _ (List.filter_sublist _))
          _ ≤ 1 := h.1
      · intro t ht htu
        simp only [armTimer, List.mem_append] at ht
        rcases ht with ht | ht
        · have hmem := (List.mem_filter.mp ht).1
          have h2 := h.2 t hmem htu
          rw [sessionTimer_eq _ σ u' ⟨newC, some σ.nextTimerId⟩ u rfl, if_neg hu]
          exact h2
        · exfalso
          have heq : t = ⟨σ.nextTimerId, u', s, ns⟩ := by simpa using ht
          rw [heq] at htu
          exact hu (htu.symm)

/-- Updating one session with its own recorded timer keeps every recorded
timer. -/
theorem sessionTimer_insert_keep {S L : Type} (σ' σ : ServerState S L) (uri : String)
    (oldT : Option Nat) (newC : String) (u : String)
    (hss : σ'.sessions = alInsert uri ⟨newC, oldT⟩ σ.sessions)
    (hst : sessionTimer σ uri = oldT) :
    sessionTimer σ' u = sessionTimer σ u := by
  rw [sessionTimer_eq σ' σ uri ⟨newC, oldT⟩ u hss]
  by_cases hx : u = uri
  · subst hx
    simp [hst]
  · simp [hx]

/-- The content-storing and validating part of `did_change` preserves the
debounce invariant. -/
theorem timersOk_didChangeWithContent {S L : Type} (σ : ServerState S L)
    (uri : String) (oldT : Option Nat) (newC : String) (u : String)
    (hst : sessionTimer σ uri = oldT)
    (h : timersOk σ u) : timersOk (didChangeWithContent σ uri oldT newC) u := by
  unfold didChangeWithContent
  cases hb : boundSchemaFor
      { σ with sessions := alInsert uri ⟨newC, oldT⟩ σ.sessions } uri with
  | none =>
    show timersOk { σ with sessions := alInsert uri ⟨newC, oldT⟩ σ.sessions } u
    exact timersOk_congr _ σ u rfl (sessionTimer_insert_keep _ σ uri oldT newC u rfl hst) h
  | some pr =>
    obtain ⟨s, ns⟩ := pr
    show timersOk (armTimer
      { σ with
        sessions := alInsert uri ⟨newC, oldT⟩ σ.sessions,
        events := σ.events ++ [⟨uri, newC, some s, ns⟩] } uri newC s ns oldT) u
    apply timersOk_armTimer
    · rw [sessionTimer_eq _ σ uri ⟨newC, oldT⟩ uri rfl]
      simp
    · exact timersOk_congr _ σ u rfl (sessionTimer_insert_keep _ σ uri oldT newC u rfl hst) h

/-- `did_change` on an existing session preserves the debounce
invariant. -/
theorem timersOk_didChangeBody {S L : Type} (σ : ServerState S L)
    (u' : String) (sess : DocSession) (chs : List DocChange) (u : String)
    (hs : List.lookup u' σ.sessions = some sess)
    (h : timersOk σ u) : timersOk (didChangeBody σ u' sess chs) u := by
  unfold didChangeBody
  cases ha : applyIncrementalChanges sess.content chs with
  | none => exact h
  | some newC =>
    show timersOk (didChangeWithContent σ u' sess.timer newC) u
    exact timersOk_didChangeWithContent σ u' sess.timer newC u
      (by simp [sessionTimer, hs]) h

/-- `did_close` touches neither the pending timers nor the sessions. -/
theorem didClose_pending_sessions {S L : Type} (σ : ServerState S L) (uri : String) :
    (didClose σ uri).pending = σ.pending ∧ (didClose σ uri).sessions = σ.sessions := by
  simp only [didClose]
  split
  · exact ⟨rfl, rfl⟩
  · split
    · exact ⟨rfl, rfl⟩
    · exact ⟨rfl, rfl⟩

/-- One change, close or fire event preserves the debounce invariant. -/
theorem timersOk_step {S D L : Type} (env : OracleEnv S D L) (σ : ServerState S L)
    (u : String) (e : LspEvent) (he : noReopenEvent e) (h : timersOk σ u) :
    timersOk (step env σ e) u := by
  match e with
  | .changeDoc u' chs =>
    simp only [step, didChange]
    cases hs : List.lookup u' σ.sessions with
    | some sess => exact timersOk_didChangeBody σ u' sess chs u hs h
    | none =>
      cases hr : env.fsRead u' with
      | none => exact h
      | some c0 =>
        apply timersOk_didChangeBody _ u' ⟨c0, none⟩ chs u
        · rw [show ({ σ with sessions := alInsert u' ⟨c0, none⟩ σ.sessions } :
              ServerState S L).sessions = alInsert u' ⟨c0, none⟩ σ.sessions from rfl,
            lookup_alInsert]
          simp
        · refine timersOk_congr _ σ u rfl ?_ h
          rw [sessionTimer_eq _ σ u' ⟨c0, none⟩ u rfl]
          by_cases hx : u = u'
          · subst hx
            simp [sessionTimer, hs]
          · simp [hx]
  | .closeDoc u' =>
    have hd := didClose_pending_sessions σ u'
    exact timersOk_congr _ σ u hd.1 (sessionTimer_congr _ σ u hd.2) h
  | .fire tid =>
    simp only [step, fireTimer]
    split
    · exact h
    · rename_i t hfind
      split
      · exact timersOk_anti _ σ u (List.eraseP_sublist _) rfl h
      · rename_i sess hsess
        exact timersOk_anti _ σ u (List.eraseP_sublist _) rfl h

/-- The invariant along any sequence of change, close and fire events. -/
theorem timersOk_run {S D L : Type} (env : OracleEnv S D L) (σ : ServerState S L)
    (u : String) (es : List LspEvent) (hes : ∀ e ∈ es, noReopenEvent e)
    (h : timersOk σ u) : timersOk (run env es σ) u := by
  induction es generalizing σ with
  | nil => exact h
  | cons e es ih =>
    have h1 := timersOk_step env σ u e (hes e (by simp)) h
    have h2 := ih (step env σ e) (fun x hx => hes x (List.mem_cons_of_mem e hx)) h1
    simpa [run, List.foldl] using h2

/-! ## Theorems for claim C4 -/

/-- C4: the claim that at most one deferred-validation timer per URI is
pending at every point of any open/change sequence, with opening cancelling
any outstanding timer, is false: open–change–reopen–change leaves two
pending timers for the same document, because `did_open` replaces the
session dictionary without cancelling the timer recorded in it. -/
theorem c4_two_timers_counterexample :
    (pendingFor (run envC traceReopen st0) "w/a").length = 2 ∧ ¬ (2 ≤ 1) := by
  refine ⟨by decide, by decide⟩

/-- C4 (amended): arming a new timer in the change handler first cancels
the timer recorded in the document's session, so in any state where every
pending timer of a document is the one its session records (and there is at
most one), any sequence of change, close and timer-fire notifications keeps
at most one pending deferred validation per document; the open handler,
however, replaces the session without cancelling an outstanding timer, so
the invariant does not survive re-opening during the debounce window. -/
theorem c4_debounce_amended {S D L : Type} (env : OracleEnv S D L) (σ : ServerState S L)
    (u : String) (es : List LspEvent)
    (hes : ∀ e ∈ es, noReopenEvent e) (h : timersOk σ u) :
    timersOk (run env es σ) u ∧ (pendingFor (run env es σ) u).length ≤ 1 := by
  have hr := timersOk_run env σ u es hes h
  exact ⟨hr, hr.1⟩

/-- Witness for C4 (amended): one change on the empty initial state. -/
theorem c4_debounce_amended_witness :
    timersOk (run envC [LspEvent.changeDoc "w/a" [DocChange.full "x"]] st0) "w/a" ∧
    (pendingFor (run envC [LspEvent.changeDoc "w/a" [DocChange.full "x"]] st0) "w/a").length ≤ 1 :=
  c4_debounce_amended envC st0 "w/a" [LspEvent.changeDoc "w/a" [DocChange.full "x"]]
    (by intro e he; simp at he; subst he; trivial)
    ⟨by decide, by intro t ht htu; simp [st0] at ht⟩

end XmlLsp
